import Mathlib

/-!
Verification of the analog-acquisition / battery-monitoring subsystem
(`src/Watch/Application/Adc.c` of MetaWatch-WDS11x-IAR).

The C module is embedded shallowly:

* the static module variables become the fields of `Adc.AdcState`;
* each C function that the claims mention becomes a Lean function on that
  state (pure state passing);
* `unsigned int` overflow is modelled by an explicit `% 2 ^ w` at the two
  places where it can actually occur on the 16-bit IAR/MSP430 target
  (the `BatterySense += GetBatteryCalibrationValue()` addition and the
  `SampleTotal +=` accumulation loops); `w` is kept as a parameter, with
  `w = 16` the width of `unsigned int` on the target;
* the ADC count-to-voltage conversions, computed in C with `double`
  arithmetic, are embedded with exact rational arithmetic over `ℚ`.
  This is faithful on the whole reachable domain: the converter is 12-bit
  (counts 0..4095), and for every count in that range the IEEE-754
  binary64 evaluation of `CONVERSION_FACTOR_BATTERY * (double)Counts`
  (resp. `CONVERSION_FACTOR * (double)Counts`) truncates to exactly the
  same integer as the exact rational product, checked exhaustively
  (the light factor `2.5*10000/4096` is even exactly representable, and
  all products for counts < 4096 fit in 53 bits);
* the external collaborators that are part of the repository but not of
  `src/` (OSAL_Nv, hal_calibration, the message transport) are modelled
  from the spec where a claim depends on them, marked
  `Modelled from the spec:` in their doc comments.
-/

namespace Adc

/-- The two persistent-store keys used by this module
(`NVID_LOW_BATTERY_WARNING_LEVEL`, `NVID_LOW_BATTERY_BTOFF_LEVEL` from NvIds.h). -/
inductive NvId where
  | nvidLowBatteryWarningLevel
  | nvidLowBatteryBtOffLevel
deriving DecidableEq

/-- `MAX_SAMPLES` (Adc.c line 58). -/
def MAX_SAMPLES : Nat := 10

/-- `DEFAULT_LOW_BATTERY_WARNING_LEVEL` (Adc.c line 74). -/
def DEFAULT_LOW_BATTERY_WARNING_LEVEL : Nat := 3500

/-- `DEFAULT_LOW_BATTERY_BTOFF_LEVEL` (Adc.c line 75). -/
def DEFAULT_LOW_BATTERY_BTOFF_LEVEL : Nat := 3300

/-- The static module state of Adc.c (lines 56-78), plus the persistent
key-value store backing the two threshold NV items.  The two sample arrays
are kept as length-10 lists; the write indices are `unsigned char` counters
kept below `MAX_SAMPLES`. -/
structure AdcState where
  hardwareConfiguration : Nat
  batterySense : Nat
  lightSense : Nat
  batterySenseSamples : List Nat
  lightSenseSamples : List Nat
  batterySenseSampleIndex : Nat
  lightSenseSampleIndex : Nat
  batterySenseAverageReady : Bool
  lightSenseAverageReady : Bool
  lowBatteryWarningMessageSent : Bool
  lowBatteryBtOffMessageSent : Bool
  lowBatteryWarningLevel : Nat
  lowBatteryBtOffLevel : Nat
  nv : NvId → Option Nat

/-- `CONVERSION_FACTOR_BATTERY = ((24300.0+38300.0)*2.5*1000.0)/(4095.0*24300.0)`
(Adc.c lines 103-104), embedded as the exact rational value. -/
def CONVERSION_FACTOR_BATTERY : ℚ := ((24300 + 38300) * 2.5 * 1000) / (4095 * 24300)

/-- `AdcCountsToBatteryVoltage` (Adc.c lines 111-114): truncation of
`CONVERSION_FACTOR_BATTERY * Counts` to an unsigned integer (millivolts). -/
def AdcCountsToBatteryVoltage (counts : Nat) : Nat :=
  (⌊CONVERSION_FACTOR_BATTERY * (counts : ℚ)⌋).toNat

/-- `CONVERSION_FACTOR = 2.5*10000.0/4096.0` (Adc.c line 117), exact rational. -/
def CONVERSION_FACTOR : ℚ := 2.5 * 10000 / 4096

/-- `AdcCountsToVoltage` (Adc.c lines 124-127): truncation of
`CONVERSION_FACTOR * Counts`. -/
def AdcCountsToVoltage (counts : Nat) : Nat :=
  (⌊CONVERSION_FACTOR * (counts : ℚ)⌋).toNat

/-- The value stored in `BatterySense` by `FinishBatterySenseCycle`
(Adc.c lines 270-275): the converted count, plus the battery calibration
value when `QueryCalibrationValid()` holds.  The calibration provider
(hal_calibration, not part of src/) is modelled from the spec: an
externally supplied signed-integer millivolt offset together with a
validity flag.  The C addition `BatterySense += GetBatteryCalibrationValue()`
is `unsigned int` arithmetic, hence taken modulo `2 ^ w`. -/
def publishedBatteryValue (w : Nat) (counts : Nat) (calValid : Bool) (calOffset : Int) : Nat :=
  let v := AdcCountsToBatteryVoltage counts
  if calValid then (((v : Int) + calOffset) % ((2 : Int) ^ w)).toNat else v

/-- The inputs consumed by one battery sense cycle: the raw ADC count read
from `ADC12MEM1` and the externally supplied calibration data. -/
structure BatteryCycleIn where
  counts : Nat
  calValid : Bool
  calOffset : Int

/-- `FinishBatterySenseCycle` (Adc.c lines 268-288): publish the converted,
calibration-adjusted value into the circular buffer, advance the write
index, and latch `BatterySenseAverageReady` on wrap. -/
def FinishBatterySenseCycle (w : Nat) (inp : BatteryCycleIn) (s : AdcState) : AdcState :=
  let bs := publishedBatteryValue w inp.counts inp.calValid inp.calOffset
  let samples := s.batterySenseSamples.set s.batterySenseSampleIndex bs
  let idx := s.batterySenseSampleIndex + 1
  if MAX_SAMPLES ≤ idx then
    { s with batterySense := bs, batterySenseSamples := samples,
             batterySenseSampleIndex := 0, batterySenseAverageReady := true }
  else
    { s with batterySense := bs, batterySenseSamples := samples,
             batterySenseSampleIndex := idx }

/-- `FinishLightSenseCycle` (Adc.c lines 438-458): same shape as the battery
cycle, no calibration adjustment. -/
def FinishLightSenseCycle (counts : Nat) (s : AdcState) : AdcState :=
  let ls := AdcCountsToVoltage counts
  let samples := s.lightSenseSamples.set s.lightSenseSampleIndex ls
  let idx := s.lightSenseSampleIndex + 1
  if MAX_SAMPLES ≤ idx then
    { s with lightSense := ls, lightSenseSamples := samples,
             lightSenseSampleIndex := 0, lightSenseAverageReady := true }
  else
    { s with lightSense := ls, lightSenseSamples := samples,
             lightSenseSampleIndex := idx }

/-- `FinishHardwareCfgCycle` (Adc.c lines 233-242): stores the converted
count; no averaging on this channel. -/
def FinishHardwareCfgCycle (counts : Nat) (s : AdcState) : AdcState :=
  { s with hardwareConfiguration := AdcCountsToVoltage counts }

/-- `ReadBatterySenseAverage` (Adc.c lines 475-496).  The accumulation loop
`SampleTotal += BatterySenseSamples[i]` runs in `unsigned int`, so each
step is taken modulo `2 ^ w`. -/
def ReadBatterySenseAverage (w : Nat) (s : AdcState) : Nat :=
  if s.batterySenseAverageReady then
    (s.batterySenseSamples.foldl (fun acc x => (acc + x) % 2 ^ w) 0) / MAX_SAMPLES
  else
    s.batterySense

/-- `ReadLightSenseAverage` (Adc.c lines 504-524), same shape. -/
def ReadLightSenseAverage (w : Nat) (s : AdcState) : Nat :=
  if s.lightSenseAverageReady then
    (s.lightSenseSamples.foldl (fun acc x => (acc + x) % 2 ^ w) 0) / MAX_SAMPLES
  else
    s.lightSense

/-- `OsalNvWrite` on one of the two threshold items.
Modelled from the spec: OSAL_Nv (not part of src/) is a persistent
key-value store with `put(key, bytes)` semantics. -/
def OsalNvWrite (id : NvId) (v : Nat) (nv : NvId → Option Nat) : NvId → Option Nat :=
  fun k => if k = id then some v else nv k

/-- `OsalNvItemInit` on one of the two threshold items, returning the value
the caller's variable holds afterwards together with the updated store.
Modelled from the spec: reads the item from persistent storage if present;
if absent, writes the supplied default and uses it. -/
def OsalNvItemInit (id : NvId) (dflt : Nat) (nv : NvId → Option Nat) :
    Nat × (NvId → Option Nat) :=
  match nv id with
  | some v => (v, nv)
  | none => (dflt, OsalNvWrite id dflt nv)

/-- `SetBatteryLevels` (Adc.c lines 532-546): `pData` is a byte array; the
in-memory thresholds become `pData[0] * 100` and `pData[1] * 100` and both
are written to the persistent store.  (`pData[k] * 100 ≤ 25500` fits in the
16-bit `unsigned int` of the target, so no wrap is involved.) -/
def SetBatteryLevels (d0 d1 : Fin 256) (s : AdcState) : AdcState :=
  { s with
    lowBatteryWarningLevel := d0.val * 100,
    lowBatteryBtOffLevel := d1.val * 100,
    nv := OsalNvWrite NvId.nvidLowBatteryBtOffLevel (d1.val * 100)
            (OsalNvWrite NvId.nvidLowBatteryWarningLevel (d0.val * 100) s.nv) }

/-- `InitializeLowBatteryLevels` (Adc.c lines 549-561): set the defaults,
then `OsalNvItemInit` each threshold (read stored value if present, else
persist the default). -/
def InitializeLowBatteryLevels (s : AdcState) : AdcState :=
  let w := OsalNvItemInit NvId.nvidLowBatteryWarningLevel
             DEFAULT_LOW_BATTERY_WARNING_LEVEL s.nv
  let b := OsalNvItemInit NvId.nvidLowBatteryBtOffLevel
             DEFAULT_LOW_BATTERY_BTOFF_LEVEL w.2
  { s with lowBatteryWarningLevel := w.1, lowBatteryBtOffLevel := b.1, nv := b.2 }

/-- `InitializeAdc` (Adc.c lines 147-190) restricted to the module state:
indices, instantaneous readings, ready latches and alert latches cleared,
thresholds loaded by `InitializeLowBatteryLevels`.  The sample arrays are
zero-initialized C statics (never touched by `InitializeAdc` itself). -/
def InitializeAdc (nv : NvId → Option Nat) : AdcState :=
  InitializeLowBatteryLevels
    { hardwareConfiguration := 0
      batterySense := 0
      lightSense := 0
      batterySenseSamples := List.replicate MAX_SAMPLES 0
      lightSenseSamples := List.replicate MAX_SAMPLES 0
      batterySenseSampleIndex := 0
      lightSenseSampleIndex := 0
      batterySenseAverageReady := false
      lightSenseAverageReady := false
      lowBatteryWarningMessageSent := false
      lowBatteryBtOffMessageSent := false
      lowBatteryWarningLevel := 0
      lowBatteryBtOffLevel := 0
      nv := nv }

/-- The battery value published by one cycle input. -/
def batteryPublished (w : Nat) (inp : BatteryCycleIn) : Nat :=
  publishedBatteryValue w inp.counts inp.calValid inp.calOffset

/-- The circular-buffer publish step shared by the battery and light
channels (Adc.c lines 276-282 and 442-448): write at the current index,
advance, wrap to 0 and latch the ready flag when `MAX_SAMPLES` is
reached. -/
def ringPublish (v : Nat) (samples : List Nat) (idx : Nat) (ready : Bool) :
    List Nat × Nat × Bool :=
  if MAX_SAMPLES ≤ idx + 1 then (samples.set idx v, 0, true)
  else (samples.set idx v, idx + 1, ready)

/-- Iterated circular-buffer publishes. -/
def ringRun (vs : List Nat) (samples : List Nat) (idx : Nat) (ready : Bool) :
    List Nat × Nat × Bool :=
  match vs with
  | [] => (samples, idx, ready)
  | v :: rest =>
      ringRun rest (ringPublish v samples idx ready).1
        (ringPublish v samples idx ready).2.1 (ringPublish v samples idx ready).2.2

/-- Run a sequence of battery sense cycles (each cycle ends in
`FinishBatterySenseCycle`). -/
def runBatteryCycles (w : Nat) (l : List BatteryCycleIn) (s : AdcState) : AdcState :=
  l.foldl (fun t inp => FinishBatterySenseCycle w inp t) s

/-- Run a sequence of light sense cycles. -/
def runLightCycles (l : List Nat) (s : AdcState) : AdcState :=
  l.foldl (fun t c => FinishLightSenseCycle c t) s

/-- The notifications routed by `LowBatteryMonitor` (Adc.c lines 291-402),
in source order of their `RouteMsg` calls.  The payload of the two host
messages is the byte list handed to `UTL_BuildHstMsg`. -/
inductive Msg where
  | turnRadioOnMsg
  | lowBatteryBtOffMsgHost (payload : List Nat)
  | lowBatteryBtOffMsg
  | lowBatteryWarningMsgHost (payload : List Nat)
  | lowBatteryWarningMsg
  | setVibrateMode (enable onLsb onMsb offLsb offMsb cycles : Nat)
deriving DecidableEq

/-- The byte buffer handed to the host-message builder at Adc.c lines
339-340 and 372-373: the source passes `(unsigned char*)BatteryAverage`
with length 2, i.e. a pointer whose address is the *value* `BatteryAverage`.
Modelled from the spec: `UTL_BuildHstMsg` (Utilities, not part of src/)
copies `Length` payload bytes from the supplied pointer, so the payload is
the two data-memory bytes at addresses `v` and `v + 1`, where `mem` maps a
byte address to the byte stored there. -/
def hostPayloadBytes (mem : Nat → Nat) (v : Nat) : List Nat :=
  [mem v, mem (v + 1)]

/-- `LowBatteryMonitor` (Adc.c lines 291-402).  `powerGood` is the external
`QueryPowerGood()` signal and `mem` the data memory backing the host
payload reads; returns the updated state and the routed notifications in
order.  (The `QueryBatteryDebug` branch only prints to the debug UART and
routes no message.) -/
def LowBatteryMonitor (w : Nat) (mem : Nat → Nat) (powerGood : Bool) (s : AdcState) :
    AdcState × List Msg :=
  let batteryAverage := ReadBatterySenseAverage w s
  if powerGood then
    ({ s with lowBatteryWarningMessageSent := false, lowBatteryBtOffMessageSent := false },
     if s.lowBatteryBtOffMessageSent then [Msg.turnRadioOnMsg] else [])
  else
    let fireBtOff := batteryAverage < s.lowBatteryBtOffLevel
                      && s.lowBatteryBtOffMessageSent == false
    let s1 := if fireBtOff then { s with lowBatteryBtOffMessageSent := true } else s
    let msgs1 : List Msg := if fireBtOff then
        [Msg.lowBatteryBtOffMsgHost (hostPayloadBytes mem batteryAverage),
         Msg.lowBatteryBtOffMsg,
         Msg.setVibrateMode 1 0x00 0x01 0x00 0x01 5]
      else []
    let fireWarning := batteryAverage < s1.lowBatteryWarningLevel
                        && s1.lowBatteryWarningMessageSent == false
    let s2 := if fireWarning then { s1 with lowBatteryWarningMessageSent := true } else s1
    let msgs2 : List Msg := if fireWarning then
        [Msg.lowBatteryWarningMsgHost (hostPayloadBytes mem batteryAverage),
         Msg.lowBatteryWarningMsg,
         Msg.setVibrateMode 1 0x00 0x02 0x00 0x02 5]
      else []
    (s2, msgs1 ++ msgs2)

/-- One periodic invocation context for `LowBatteryMonitor`: the external
power-good signal and the ambient module state at that moment (whatever
intervening conversion cycles produced — they never touch the two alert
latch flags, which the monitor alone owns and which are threaded through). -/
structure MonitorEnv where
  powerGood : Bool
  ambient : AdcState

/-- Run a sequence of `LowBatteryMonitor` invocations, threading the two
alert latch flags through while each invocation sees its own ambient state
otherwise; returns the final `(WarningSent, BtOffSent)` pair and all routed
notifications in order. -/
def runMonitorInvocations (w : Nat) (mem : Nat → Nat) (envs : List MonitorEnv)
    (warningSent btOffSent : Bool) : (Bool × Bool) × List Msg :=
  match envs with
  | [] => ((warningSent, btOffSent), [])
  | e :: rest =>
      let r := LowBatteryMonitor w mem e.powerGood
        { e.ambient with
          lowBatteryWarningMessageSent := warningSent,
          lowBatteryBtOffMessageSent := btOffSent }
      let r2 := runMonitorInvocations w mem rest
        r.1.lowBatteryWarningMessageSent r.1.lowBatteryBtOffMessageSent
      (r2.1, r.2 ++ r2.2)

/-- Recognizer for the BtOff notifications (host or display variant). -/
def isBtOffNotification : Msg → Bool
  | Msg.lowBatteryBtOffMsgHost _ => true
  | Msg.lowBatteryBtOffMsg => true
  | _ => false

/-- The hardware/converter accesses performed inside one conversion cycle
while the mutex is held (`ENABLE_REFERENCE`/`DISABLE_REFERENCE` expand to
nothing, Adc.c lines 48-49). -/
inductive HwStep where
  | senseEnable
  | settleDelay
  | adcCheck
  | clearStartAddr
  | setStartAddr
  | enableAdc
  | waitAdcBusy
  | readAndStore
  | senseDisable
  | disableAdc
deriving DecidableEq, Fintype

/-- One event of a conversion cycle: mutex acquisition (`xSemaphoreTake`),
a hardware access, or mutex release (`xSemaphoreGive`). -/
inductive CycleEv where
  | acquire
  | hw (step : HwStep)
  | release
deriving DecidableEq, Fintype

/-- `HardwareCfgCycle` (Adc.c lines 207-242) as its straight-line event
sequence: take mutex; sense enable; `StartHardwareCfgConversion`
(`AdcCheck`, `CLEAR_START_ADDR`, start address, `ENABLE_ADC`);
`WaitForAdcBusy`; `FinishHardwareCfgCycle` (read and convert, sense
disable, `DISABLE_ADC`, then `EndAdcCycle`: `DISABLE_ADC` again and give
mutex).  There is no early exit on any path. -/
def hardwareCfgCycleTrace : List CycleEv :=
  [CycleEv.acquire,
   CycleEv.hw HwStep.senseEnable,
   CycleEv.hw HwStep.adcCheck,
   CycleEv.hw HwStep.clearStartAddr,
   CycleEv.hw HwStep.setStartAddr,
   CycleEv.hw HwStep.enableAdc,
   CycleEv.hw HwStep.waitAdcBusy,
   CycleEv.hw HwStep.readAndStore,
   CycleEv.hw HwStep.senseDisable,
   CycleEv.hw HwStep.disableAdc,
   CycleEv.hw HwStep.disableAdc,
   CycleEv.release]

/-- `BatterySenseCycle` (Adc.c lines 244-288) as its event sequence. -/
def batterySenseCycleTrace : List CycleEv :=
  [CycleEv.acquire,
   CycleEv.hw HwStep.senseEnable,
   CycleEv.hw HwStep.adcCheck,
   CycleEv.hw HwStep.clearStartAddr,
   CycleEv.hw HwStep.setStartAddr,
   CycleEv.hw HwStep.enableAdc,
   CycleEv.hw HwStep.waitAdcBusy,
   CycleEv.hw HwStep.readAndStore,
   CycleEv.hw HwStep.senseDisable,
   CycleEv.hw HwStep.disableAdc,
   CycleEv.release]

/-- `LightSenseCycle` (Adc.c lines 406-458) as its event sequence (with the
1 ms sensor wake-up delay before starting the conversion). -/
def lightSenseCycleTrace : List CycleEv :=
  [CycleEv.acquire,
   CycleEv.hw HwStep.senseEnable,
   CycleEv.hw HwStep.settleDelay,
   CycleEv.hw HwStep.adcCheck,
   CycleEv.hw HwStep.clearStartAddr,
   CycleEv.hw HwStep.setStartAddr,
   CycleEv.hw HwStep.enableAdc,
   CycleEv.hw HwStep.waitAdcBusy,
   CycleEv.hw HwStep.readAndStore,
   CycleEv.hw HwStep.senseDisable,
   CycleEv.hw HwStep.disableAdc,
   CycleEv.release]

/-- The three conversion-cycle variants, indexed: 0 = hardware config,
1 = battery sense, 2 = light sense. -/
def adcTrace : Fin 3 → List CycleEv := fun i =>
  if i.val = 0 then hardwareCfgCycleTrace
  else if i.val = 1 then batterySenseCycleTrace
  else lightSenseCycleTrace

/-- A scheduler state for the three tasks running conversion cycles:
who holds `AdcHardwareMutex` (if anyone) and each task's position in its
cycle's event sequence. -/
structure AdcSched where
  gate : Option (Fin 3)
  pc : Fin 3 → Nat

/-- Cooperative interleaving semantics: any task may perform its next
event; `xSemaphoreTake` (acquire) is only enabled while the mutex is free
(a blocked task simply waits), `xSemaphoreGive` (release) frees it. -/
inductive SchedStep : AdcSched → AdcSched → Prop where
  | acquire (st : AdcSched) (i : Fin 3) :
      (adcTrace i)[st.pc i]? = some CycleEv.acquire → st.gate = none →
      SchedStep st ⟨some i, Function.update st.pc i (st.pc i + 1)⟩
  | hw (st : AdcSched) (i : Fin 3) (h : HwStep) :
      (adcTrace i)[st.pc i]? = some (CycleEv.hw h) →
      SchedStep st ⟨st.gate, Function.update st.pc i (st.pc i + 1)⟩
  | release (st : AdcSched) (i : Fin 3) :
      (adcTrace i)[st.pc i]? = some CycleEv.release →
      SchedStep st ⟨none, Function.update st.pc i (st.pc i + 1)⟩

/-- The initial scheduler state: mutex free (given right after creation,
Adc.c lines 183-184), no cycle started. -/
def initSched : AdcSched := ⟨none, fun _ => 0⟩

/-- Scheduler states reachable by interleaved cycle execution. -/
def Reachable (st : AdcSched) : Prop :=
  Relation.ReflTransGen SchedStep initSched st

/-- Task `i` is inside its cycle's critical section: it has executed its
acquire and not yet its release. -/
def inside (i : Fin 3) (st : AdcSched) : Prop :=
  0 < st.pc i ∧ st.pc i < (adcTrace i).length

/-- The mutex invariant: the gate is held by task `i` exactly while `i` is
inside its critical section. -/
def GateInv (st : AdcSched) : Prop :=
  ∀ i : Fin 3, st.gate = some i ↔ inside i st

/-- The rational conversion factor of the battery channel, evaluated. -/
theorem conversion_factor_battery_eq :
    CONVERSION_FACTOR_BATTERY = (156500000 : ℚ) / 99508500 := by
  norm_num [CONVERSION_FACTOR_BATTERY]

/-- `AdcCountsToBatteryVoltage` computes the integer division
`counts * 156500000 / 99508500`. -/
theorem adcCountsToBatteryVoltage_eq (c : Nat) :
    AdcCountsToBatteryVoltage c = c * 156500000 / 99508500 := by
  have h1 : CONVERSION_FACTOR_BATTERY * (c : ℚ)
      = ((c * 156500000 : ℕ) : ℚ) / ((99508500 : ℕ) : ℚ) := by
    rw [conversion_factor_battery_eq]; push_cast; ring
  rw [AdcCountsToBatteryVoltage, h1, Rat.floor_natCast_div_natCast,
    ← Int.natCast_div, Int.toNat_natCast]

/-- `AdcCountsToVoltage` computes the integer division `counts * 25000 / 4096`. -/
theorem adcCountsToVoltage_eq (c : Nat) :
    AdcCountsToVoltage c = c * 25000 / 4096 := by
  have h0 : CONVERSION_FACTOR = (25000 : ℚ) / 4096 := by
    norm_num [CONVERSION_FACTOR]
  have h1 : CONVERSION_FACTOR * (c : ℚ)
      = ((c * 25000 : ℕ) : ℚ) / ((4096 : ℕ) : ℚ) := by
    rw [h0]; push_cast; ring
  rw [AdcCountsToVoltage, h1, Rat.floor_natCast_div_natCast,
    ← Int.natCast_div, Int.toNat_natCast]

/-- `FinishBatterySenseCycle` never touches the two alert latch flags:
they are owned by `LowBatteryMonitor` alone, so threading them across
intervening conversion cycles is faithful. -/
theorem finishBatterySenseCycle_latches (w : Nat) (inp : BatteryCycleIn) (s : AdcState) :
    (FinishBatterySenseCycle w inp s).lowBatteryWarningMessageSent
        = s.lowBatteryWarningMessageSent
    ∧ (FinishBatterySenseCycle w inp s).lowBatteryBtOffMessageSent
        = s.lowBatteryBtOffMessageSent := by
  by_cases hc : MAX_SAMPLES ≤ s.batterySenseSampleIndex + 1 <;>
    simp [FinishBatterySenseCycle, hc]

/-- While power is not good, an already-set BtOff latch stays set and no
further BtOff notification is routed by one monitor pass. -/
theorem monitor_btOffSent_sticky (w : Nat) (mem : Nat → Nat) (s : AdcState)
    (h : s.lowBatteryBtOffMessageSent = true) :
    (LowBatteryMonitor w mem false s).1.lowBatteryBtOffMessageSent = true
  ∧ (LowBatteryMonitor w mem false s).2.countP isBtOffNotification = 0 := by
  have hcond : ∀ b : Bool, (b && (true == false)) = false := by decide
  constructor
  · simp only [LowBatteryMonitor, h, hcond, Bool.false_eq_true, if_false]
    split <;> simp [h]
  · simp [LowBatteryMonitor, h, hcond, isBtOffNotification]
    rintro a _ _ (rfl | rfl | rfl) <;> rfl

/-- Iterated monitor passes without power good: a set BtOff latch is never
cleared and no BtOff notification is ever routed again. -/
theorem runMonitor_btOff_sticky (w : Nat) (mem : Nat → Nat) :
    ∀ (envs : List MonitorEnv) (ws : Bool),
    (∀ e ∈ envs, e.powerGood = false) →
    (runMonitorInvocations w mem envs ws true).2.countP isBtOffNotification = 0
    ∧ (runMonitorInvocations w mem envs ws true).1.2 = true := by
  intro envs
  induction envs with
  | nil => intro ws _; simp [runMonitorInvocations]
  | cons e rest ih =>
      intro ws hall
      have he : e.powerGood = false := hall e (List.mem_cons_self _ _)
      have hrest : ∀ e' ∈ rest, e'.powerGood = false :=
        fun e' h' => hall e' (List.mem_cons_of_mem _ h')
      have hstick := monitor_btOffSent_sticky w mem
        { e.ambient with lowBatteryWarningMessageSent := ws,
                         lowBatteryBtOffMessageSent := true } rfl
      simp only [runMonitorInvocations, he]
      rw [hstick.1]
      have hr := ih (LowBatteryMonitor w mem false
        { e.ambient with lowBatteryWarningMessageSent := ws,
                         lowBatteryBtOffMessageSent := true }).1.lowBatteryWarningMessageSent hrest
      exact ⟨by simp [List.countP_append, hstick.2, hr.1], hr.2⟩

/-- C6: for every raw count the light/hardware-config conversion returns
`floor(count * 2.5 * 10000 / 4096)`; raw count 4095 yields 24993, raw
count 0 yields 0 on all channels (light, hardware config, battery). -/
theorem c6_conversion_formula_exactness :
    (∀ c : Nat, AdcCountsToVoltage c = c * 25000 / 4096)
  ∧ AdcCountsToVoltage 4095 = 24993
  ∧ AdcCountsToVoltage 0 = 0
  ∧ AdcCountsToBatteryVoltage 0 = 0
  ∧ (∀ s : AdcState, (FinishHardwareCfgCycle 0 s).hardwareConfiguration = 0)
  ∧ (∀ s : AdcState, (FinishLightSenseCycle 0 s).lightSense = 0) := by
  refine ⟨fun c => adcCountsToVoltage_eq c,
    by rw [adcCountsToVoltage_eq],
    by rw [adcCountsToVoltage_eq],
    by rw [adcCountsToBatteryVoltage_eq],
    fun s => by simp [FinishHardwareCfgCycle, adcCountsToVoltage_eq],
    fun s => ?_⟩
  by_cases hc : MAX_SAMPLES ≤ s.lightSenseSampleIndex + 1 <;>
    simp [FinishLightSenseCycle, hc, adcCountsToVoltage_eq]

/-- C10: `SetBatteryLevels` modifies only the two thresholds (and their
persistent copies): instantaneous readings, both sample ring buffers,
write indices, ready latches and both alert latch flags are unchanged. -/
theorem c10_setBatteryLevels_frame (d0 d1 : Fin 256) (s : AdcState) :
    (SetBatteryLevels d0 d1 s).hardwareConfiguration = s.hardwareConfiguration
  ∧ (SetBatteryLevels d0 d1 s).batterySense = s.batterySense
  ∧ (SetBatteryLevels d0 d1 s).lightSense = s.lightSense
  ∧ (SetBatteryLevels d0 d1 s).batterySenseSamples = s.batterySenseSamples
  ∧ (SetBatteryLevels d0 d1 s).lightSenseSamples = s.lightSenseSamples
  ∧ (SetBatteryLevels d0 d1 s).batterySenseSampleIndex = s.batterySenseSampleIndex
  ∧ (SetBatteryLevels d0 d1 s).lightSenseSampleIndex = s.lightSenseSampleIndex
  ∧ (SetBatteryLevels d0 d1 s).batterySenseAverageReady = s.batterySenseAverageReady
  ∧ (SetBatteryLevels d0 d1 s).lightSenseAverageReady = s.lightSenseAverageReady
  ∧ (SetBatteryLevels d0 d1 s).lowBatteryWarningMessageSent
      = s.lowBatteryWarningMessageSent
  ∧ (SetBatteryLevels d0 d1 s).lowBatteryBtOffMessageSent
      = s.lowBatteryBtOffMessageSent :=
  ⟨rfl, rfl, rfl, rfl, rfl, rfl, rfl, rfl, rfl, rfl, rfl⟩

/-- C7: `SetBatteryLevels` sets the in-memory thresholds to `pData[0]*100`
and `pData[1]*100` and persists them, so a fresh `InitializeLowBatteryLevels`
over the persisted store yields exactly those values; with no stored
values it yields and writes back the defaults 3500 / 3300 mV. -/
theorem c7_threshold_roundtrip (d0 d1 : Fin 256) (s t u : AdcState)
    (hfresh : t.nv = (SetBatteryLevels d0 d1 s).nv)
    (habsent1 : u.nv NvId.nvidLowBatteryWarningLevel = none)
    (habsent2 : u.nv NvId.nvidLowBatteryBtOffLevel = none) :
    (SetBatteryLevels d0 d1 s).lowBatteryWarningLevel = d0.val * 100
  ∧ (SetBatteryLevels d0 d1 s).lowBatteryBtOffLevel = d1.val * 100
  ∧ (SetBatteryLevels d0 d1 s).nv NvId.nvidLowBatteryWarningLevel = some (d0.val * 100)
  ∧ (SetBatteryLevels d0 d1 s).nv NvId.nvidLowBatteryBtOffLevel = some (d1.val * 100)
  ∧ (InitializeLowBatteryLevels t).lowBatteryWarningLevel = d0.val * 100
  ∧ (InitializeLowBatteryLevels t).lowBatteryBtOffLevel = d1.val * 100
  ∧ (InitializeLowBatteryLevels u).lowBatteryWarningLevel = 3500
  ∧ (InitializeLowBatteryLevels u).lowBatteryBtOffLevel = 3300
  ∧ (InitializeLowBatteryLevels u).nv NvId.nvidLowBatteryWarningLevel = some 3500
  ∧ (InitializeLowBatteryLevels u).nv NvId.nvidLowBatteryBtOffLevel = some 3300 := by
  refine ⟨rfl, rfl, by simp [SetBatteryLevels, OsalNvWrite],
    by simp [SetBatteryLevels, OsalNvWrite], ?_, ?_, ?_, ?_, ?_, ?_⟩ <;>
    simp [InitializeLowBatteryLevels, OsalNvItemInit, OsalNvWrite, hfresh,
      habsent1, habsent2, SetBatteryLevels,
      DEFAULT_LOW_BATTERY_WARNING_LEVEL, DEFAULT_LOW_BATTERY_BTOFF_LEVEL]

/-- C7 witness: set levels to 40/33 (steps of 100 mV), reload from the
persisted store, and load from an empty store. -/
theorem c7_threshold_roundtrip_witness :
    (SetBatteryLevels ⟨40, by decide⟩ ⟨33, by decide⟩
        (InitializeAdc (fun _ => none))).lowBatteryWarningLevel = 4000
  ∧ (SetBatteryLevels ⟨40, by decide⟩ ⟨33, by decide⟩
        (InitializeAdc (fun _ => none))).lowBatteryBtOffLevel = 3300
  ∧ (SetBatteryLevels ⟨40, by decide⟩ ⟨33, by decide⟩
        (InitializeAdc (fun _ => none))).nv NvId.nvidLowBatteryWarningLevel = some 4000
  ∧ (SetBatteryLevels ⟨40, by decide⟩ ⟨33, by decide⟩
        (InitializeAdc (fun _ => none))).nv NvId.nvidLowBatteryBtOffLevel = some 3300
  ∧ (InitializeLowBatteryLevels (SetBatteryLevels ⟨40, by decide⟩ ⟨33, by decide⟩
        (InitializeAdc (fun _ => none)))).lowBatteryWarningLevel = 4000
  ∧ (InitializeLowBatteryLevels (SetBatteryLevels ⟨40, by decide⟩ ⟨33, by decide⟩
        (InitializeAdc (fun _ => none)))).lowBatteryBtOffLevel = 3300
  ∧ (InitializeLowBatteryLevels { InitializeAdc (fun _ => none) with
        nv := fun _ => none }).lowBatteryWarningLevel = 3500
  ∧ (InitializeLowBatteryLevels { InitializeAdc (fun _ => none) with
        nv := fun _ => none }).lowBatteryBtOffLevel = 3300
  ∧ (InitializeLowBatteryLevels { InitializeAdc (fun _ => none) with
        nv := fun _ => none }).nv NvId.nvidLowBatteryWarningLevel = some 3500
  ∧ (InitializeLowBatteryLevels { InitializeAdc (fun _ => none) with
        nv := fun _ => none }).nv NvId.nvidLowBatteryBtOffLevel = some 3300 := by
  have h := c7_threshold_roundtrip ⟨40, by decide⟩ ⟨33, by decide⟩
    (InitializeAdc (fun _ => none))
    (SetBatteryLevels ⟨40, by decide⟩ ⟨33, by decide⟩ (InitializeAdc (fun _ => none)))
    { InitializeAdc (fun _ => none) with nv := fun _ => none }
    rfl rfl rfl
  exact h

/-- C2: in one monitor pass with power good false, both latches clear and
the average strictly below both thresholds, the BtOff notification group
(host message, display message, vibration) is routed first, then the
Warning group — exactly one of each, in that order. -/
theorem c2_double_crossing_order (w : Nat) (mem : Nat → Nat) (s : AdcState)
    (hW : s.lowBatteryWarningMessageSent = false)
    (hB : s.lowBatteryBtOffMessageSent = false)
    (h1 : ReadBatterySenseAverage w s < s.lowBatteryBtOffLevel)
    (h2 : ReadBatterySenseAverage w s < s.lowBatteryWarningLevel) :
    (LowBatteryMonitor w mem false s).2
      = [Msg.lowBatteryBtOffMsgHost (hostPayloadBytes mem (ReadBatterySenseAverage w s)),
         Msg.lowBatteryBtOffMsg,
         Msg.setVibrateMode 1 0x00 0x01 0x00 0x01 5,
         Msg.lowBatteryWarningMsgHost (hostPayloadBytes mem (ReadBatterySenseAverage w s)),
         Msg.lowBatteryWarningMsg,
         Msg.setVibrateMode 1 0x00 0x02 0x00 0x02 5] := by
  simp [LowBatteryMonitor, hW, hB, h1, h2]

/-- C2 witness: the freshly initialized state with the average latch set
has average 0, below both default thresholds 3300/3500. -/
theorem c2_double_crossing_order_witness :
    (LowBatteryMonitor 16 (fun _ => 0) false
        { InitializeAdc (fun _ => none) with batterySenseAverageReady := true }).2
      = [Msg.lowBatteryBtOffMsgHost (hostPayloadBytes (fun _ => 0)
            (ReadBatterySenseAverage 16
              { InitializeAdc (fun _ => none) with batterySenseAverageReady := true })),
         Msg.lowBatteryBtOffMsg,
         Msg.setVibrateMode 1 0x00 0x01 0x00 0x01 5,
         Msg.lowBatteryWarningMsgHost (hostPayloadBytes (fun _ => 0)
            (ReadBatterySenseAverage 16
              { InitializeAdc (fun _ => none) with batterySenseAverageReady := true })),
         Msg.lowBatteryWarningMsg,
         Msg.setVibrateMode 1 0x00 0x02 0x00 0x02 5] :=
  c2_double_crossing_order 16 (fun _ => 0)
    { InitializeAdc (fun _ => none) with batterySenseAverageReady := true }
    rfl rfl (by decide) (by decide)

/-- C1: once the BtOff latch is set, any sequence of monitor passes with
power good false routes no further BtOff notification and keeps the latch
set, however far the average falls; a pass with power good true clears
both latches and routes exactly one `TurnRadioOnMsg` (resume radio) iff
the BtOff latch was set at its start. -/
theorem c1_hysteresis_stickiness (w : Nat) (mem : Nat → Nat) (envs : List MonitorEnv)
    (ws : Bool) (s : AdcState)
    (hall : ∀ e ∈ envs, e.powerGood = false) :
    (runMonitorInvocations w mem envs ws true).2.countP isBtOffNotification = 0
  ∧ (runMonitorInvocations w mem envs ws true).1.2 = true
  ∧ LowBatteryMonitor w mem true s
      = ({ s with lowBatteryWarningMessageSent := false,
                  lowBatteryBtOffMessageSent := false },
         if s.lowBatteryBtOffMessageSent then [Msg.turnRadioOnMsg] else []) :=
  ⟨(runMonitor_btOff_sticky w mem envs ws hall).1,
   (runMonitor_btOff_sticky w mem envs ws hall).2,
   rfl⟩

/-- C1 witness: one power-good-false pass over a state whose average (0)
is far below BtOffLevel routes nothing while the latch is set, and the
power-good pass on a latched state routes exactly the resume-radio
notification. -/
theorem c1_hysteresis_stickiness_witness :
    (runMonitorInvocations 16 (fun _ => 0)
        [⟨false, { InitializeAdc (fun _ => none) with batterySenseAverageReady := true }⟩]
        false true).2.countP isBtOffNotification = 0
  ∧ (runMonitorInvocations 16 (fun _ => 0)
        [⟨false, { InitializeAdc (fun _ => none) with batterySenseAverageReady := true }⟩]
        false true).1.2 = true
  ∧ LowBatteryMonitor 16 (fun _ => 0) true
        { InitializeAdc (fun _ => none) with lowBatteryBtOffMessageSent := true }
      = ({ { InitializeAdc (fun _ => none) with lowBatteryBtOffMessageSent := true } with
            lowBatteryWarningMessageSent := false,
            lowBatteryBtOffMessageSent := false },
         if ({ InitializeAdc (fun _ => none) with
                lowBatteryBtOffMessageSent := true }).lowBatteryBtOffMessageSent
         then [Msg.turnRadioOnMsg] else []) :=
  c1_hysteresis_stickiness 16 (fun _ => 0)
    [⟨false, { InitializeAdc (fun _ => none) with batterySenseAverageReady := true }⟩]
    false { InitializeAdc (fun _ => none) with lowBatteryBtOffMessageSent := true }
    (by simp)

/-- C8: the code does not send the little-endian bytes of the averaged
value: the pointer argument of `UTL_BuildHstMsg` is the *value*
`BatteryAverage` cast to a pointer (Adc.c line 340), so the payload is
whatever two bytes sit at that address.  With all data memory zero and
average 1, the BtOff host payload is `[0, 0]`, not the little-endian
encoding `[1 % 256, 1 / 256] = [1, 0]` of the average. -/
theorem c8_payload_not_little_endian :
    (LowBatteryMonitor 16 (fun _ => 0) false
        { InitializeAdc (fun _ => none) with
            batterySenseSamples := List.replicate 10 1,
            batterySenseAverageReady := true }).2
      = [Msg.lowBatteryBtOffMsgHost [0, 0],
         Msg.lowBatteryBtOffMsg,
         Msg.setVibrateMode 1 0x00 0x01 0x00 0x01 5,
         Msg.lowBatteryWarningMsgHost [0, 0],
         Msg.lowBatteryWarningMsg,
         Msg.setVibrateMode 1 0x00 0x02 0x00 0x02 5]
  ∧ ReadBatterySenseAverage 16
        { InitializeAdc (fun _ => none) with
            batterySenseSamples := List.replicate 10 1,
            batterySenseAverageReady := true } = 1
  ∧ ([0, 0] : List Nat) ≠ [1 % 256, 1 / 256] := by
  exact ⟨by decide, by decide, by decide⟩

/-- A fold that reduces modulo `m` at every step computes the sum modulo
`m` (this is the `SampleTotal +=` loop in `unsigned int`). -/
theorem foldl_mod_add (m : Nat) :
    ∀ (l : List Nat) (a : Nat), a % m = a →
    l.foldl (fun acc x => (acc + x) % m) a = (a + l.sum) % m := by
  intro l
  induction l with
  | nil => intro a ha; simpa using ha.symm
  | cons x xs ih =>
      intro a ha
      have h1 : ((a + x) % m) % m = (a + x) % m := Nat.mod_mod_of_dvd _ dvd_rfl
      calc (x :: xs).foldl (fun acc x => (acc + x) % m) a
          = xs.foldl (fun acc x => (acc + x) % m) ((a + x) % m) := rfl
        _ = ((a + x) % m + xs.sum) % m := ih _ h1
        _ = (a + (x :: xs).sum) % m := by
            rw [Nat.mod_add_mod, List.sum_cons, Nat.add_assoc]

/-- `ReadBatterySenseAverage` with the ready latch set returns the modular
sum of the buffer divided by `MAX_SAMPLES`. -/
theorem readBatterySenseAverage_of_ready (w : Nat) (s : AdcState)
    (h : s.batterySenseAverageReady = true) :
    ReadBatterySenseAverage w s
      = (s.batterySenseSamples.sum % 2 ^ w) / MAX_SAMPLES := by
  rw [ReadBatterySenseAverage, if_pos h,
    foldl_mod_add (2 ^ w) s.batterySenseSamples 0 (Nat.zero_mod _), Nat.zero_add]

/-- `ReadLightSenseAverage` with the ready latch set returns the modular
sum of the buffer divided by `MAX_SAMPLES`. -/
theorem readLightSenseAverage_of_ready (w : Nat) (s : AdcState)
    (h : s.lightSenseAverageReady = true) :
    ReadLightSenseAverage w s
      = (s.lightSenseSamples.sum % 2 ^ w) / MAX_SAMPLES := by
  rw [ReadLightSenseAverage, if_pos h,
    foldl_mod_add (2 ^ w) s.lightSenseSamples 0 (Nat.zero_mod _), Nat.zero_add]

/-- A batch of publishes that fits in the remainder of the circular buffer
overwrites exactly the slots from the write index on, advances the index,
and latches the ready flag exactly when the end of the buffer is
reached. -/
theorem ringRun_fill :
    ∀ (vs samples : List Nat) (idx : Nat) (ready : Bool),
    samples.length = MAX_SAMPLES →
    idx < MAX_SAMPLES →
    idx + vs.length ≤ MAX_SAMPLES →
    (ringRun vs samples idx ready).1
        = samples.take idx ++ vs ++ samples.drop (idx + vs.length)
    ∧ (ringRun vs samples idx ready).2.1
        = (if idx + vs.length = MAX_SAMPLES then 0 else idx + vs.length)
    ∧ (ringRun vs samples idx ready).2.2
        = (if idx + vs.length = MAX_SAMPLES then true else ready) := by
  intro vs
  induction vs with
  | nil =>
      intro samples idx ready hlen hidx hle
      have hne : ¬ (idx + ([] : List Nat).length = MAX_SAMPLES) := by
        simp only [List.length_nil]
        omega
      exact ⟨by simp [ringRun],
        by rw [if_neg hne]; simp [ringRun],
        by rw [if_neg hne]; simp [ringRun]⟩
  | cons v rest ih =>
      intro samples idx ready hlen hidx hle
      have hidxlen : idx < samples.length := by rw [hlen]; exact hidx
      have hset := List.set_eq_take_cons_drop v hidxlen
      by_cases hwrap : MAX_SAMPLES ≤ idx + 1
      · have hrest : rest = [] := by
          simp only [List.length_cons] at hle
          exact List.length_eq_zero.mp (by omega)
        subst hrest
        have h10 : idx + [v].length = MAX_SAMPLES := by
          simp only [List.length_cons, List.length_nil] at hle ⊢
          omega
        have hrp : ringPublish v samples idx ready = (samples.set idx v, 0, true) := by
          unfold ringPublish
          rw [if_pos hwrap]
        have hrun : ringRun [v] samples idx ready = (samples.set idx v, 0, true) := by
          show ringRun [] (ringPublish v samples idx ready).1
              (ringPublish v samples idx ready).2.1
              (ringPublish v samples idx ready).2.2 = _
          rw [hrp]
          rfl
        refine ⟨?_, ?_, ?_⟩
        · rw [hrun, hset, h10]
          have hidx1 : idx + 1 = MAX_SAMPLES := by omega
          rw [hidx1]
          simp
        · rw [hrun, if_pos h10]
        · rw [hrun, if_pos h10]
      · have hrp : ringPublish v samples idx ready
            = (samples.set idx v, idx + 1, ready) := by
          unfold ringPublish
          rw [if_neg hwrap]
        have hstep : ringRun (v :: rest) samples idx ready
            = ringRun rest (samples.set idx v) (idx + 1) ready := by
          show ringRun rest (ringPublish v samples idx ready).1
              (ringPublish v samples idx ready).2.1
              (ringPublish v samples idx ready).2.2 = _
          rw [hrp]
        have ihapp := ih (samples.set idx v) (idx + 1) ready
          (by simpa using hlen)
          (by omega)
          (by simp only [List.length_cons] at hle; omega)
        have hlt : (samples.take idx).length = idx := by
          rw [List.length_take, hlen]
          omega
        have htake : (samples.set idx v).take (idx + 1)
            = samples.take idx ++ [v] := by
          rw [hset, List.take_append_eq_append_take,
            List.take_of_length_le (by rw [hlt]; omega), hlt]
          simp
        have hdrop : (samples.set idx v).drop (idx + 1 + rest.length)
            = samples.drop (idx + (v :: rest).length) := by
          rw [hset, List.drop_append_eq_append_drop,
            List.drop_eq_nil_of_le (by rw [hlt]; omega), hlt,
            List.nil_append]
          have h1 : idx + 1 + rest.length - idx = rest.length + 1 := by omega
          rw [h1, List.drop_succ_cons, List.drop_drop]
          congr 1
          simp only [List.length_cons]
          omega
        have harith : idx + 1 + rest.length = idx + (v :: rest).length := by
          simp only [List.length_cons]
          omega
        refine ⟨?_, ?_, ?_⟩
        · rw [hstep, ihapp.1, htake, hdrop]
          simp
        · rw [hstep, ihapp.2.1, harith]
        · rw [hstep, ihapp.2.2, harith]

/-- `ringRun` splits over list append. -/
theorem ringRun_append :
    ∀ (vs1 vs2 samples : List Nat) (idx : Nat) (ready : Bool),
    ringRun (vs1 ++ vs2) samples idx ready
      = ringRun vs2 (ringRun vs1 samples idx ready).1
          (ringRun vs1 samples idx ready).2.1
          (ringRun vs1 samples idx ready).2.2 := by
  intro vs1
  induction vs1 with
  | nil => intro vs2 samples idx ready; rfl
  | cons v rest ih =>
      intro vs2 samples idx ready
      exact ih vs2 (ringPublish v samples idx ready).1
        (ringPublish v samples idx ready).2.1
        (ringPublish v samples idx ready).2.2

/-- Publishing a full buffer's worth of values replaces the buffer contents
with exactly those values (in rotated slot order), restores the write
index, and leaves the ready flag latched. -/
theorem ringRun_block (vs samples : List Nat) (idx : Nat) (ready : Bool)
    (hvs : vs.length = MAX_SAMPLES) (hlen : samples.length = MAX_SAMPLES)
    (hidx : idx < MAX_SAMPLES) :
    (ringRun vs samples idx ready).1
        = vs.drop (MAX_SAMPLES - idx) ++ vs.take (MAX_SAMPLES - idx)
    ∧ (ringRun vs samples idx ready).2.1 = idx
    ∧ (ringRun vs samples idx ready).2.2 = true := by
  have hk1 : (vs.take (MAX_SAMPLES - idx)).length = MAX_SAMPLES - idx := by
    rw [List.length_take, hvs]
    omega
  have hk2 : (vs.drop (MAX_SAMPLES - idx)).length = idx := by
    rw [List.length_drop, hvs]
    omega
  have hrun : ringRun vs samples idx ready
      = ringRun (vs.take (MAX_SAMPLES - idx) ++ vs.drop (MAX_SAMPLES - idx))
          samples idx ready := by
    rw [List.take_append_drop]
  have hcond1 : idx + (vs.take (MAX_SAMPLES - idx)).length = MAX_SAMPLES := by
    rw [hk1]
    omega
  have hfill1 := ringRun_fill (vs.take (MAX_SAMPLES - idx)) samples idx ready
    hlen hidx (by rw [hk1]; omega)
  have hc : (ringRun (vs.take (MAX_SAMPLES - idx)) samples idx ready).2.1 = 0 := by
    rw [hfill1.2.1, if_pos hcond1]
  have hr : (ringRun (vs.take (MAX_SAMPLES - idx)) samples idx ready).2.2 = true := by
    rw [hfill1.2.2, if_pos hcond1]
  have hS1len : (ringRun (vs.take (MAX_SAMPLES - idx)) samples idx ready).1.length
      = MAX_SAMPLES := by
    rw [hfill1.1]
    simp only [List.length_append, List.length_take, List.length_drop, hlen, hvs]
    omega
  have hS1drop : ((ringRun (vs.take (MAX_SAMPLES - idx)) samples idx ready).1).drop idx
      = vs.take (MAX_SAMPLES - idx) := by
    rw [hfill1.1, hcond1, List.drop_eq_nil_of_le (le_of_eq hlen),
      List.append_nil, List.drop_append_eq_append_drop,
      List.drop_eq_nil_of_le (by rw [List.length_take, hlen]; omega),
      List.nil_append, List.length_take, hlen]
    have hz : idx - min idx MAX_SAMPLES = 0 := by omega
    rw [hz, List.drop_zero]
  have hfill2 := ringRun_fill (vs.drop (MAX_SAMPLES - idx))
    (ringRun (vs.take (MAX_SAMPLES - idx)) samples idx ready).1 0 true
    hS1len (by omega) (by rw [hk2]; omega)
  have hcond2 : ¬ (0 + (vs.drop (MAX_SAMPLES - idx)).length = MAX_SAMPLES) := by
    rw [hk2]
    omega
  refine ⟨?_, ?_, ?_⟩
  · rw [hrun, ringRun_append, hc, hr, hfill2.1, List.take_zero, List.nil_append,
      hk2, Nat.zero_add, hS1drop]
  · rw [hrun, ringRun_append, hc, hr, hfill2.2.1, if_neg hcond2, hk2]
    omega
  · rw [hrun, ringRun_append, hc, hr, hfill2.2.2, if_neg hcond2]

/-- `ringRun` keeps the buffer length fixed and the write index in
bounds. -/
theorem ringRun_valid :
    ∀ (vs samples : List Nat) (idx : Nat) (ready : Bool),
    samples.length = MAX_SAMPLES → idx < MAX_SAMPLES →
    (ringRun vs samples idx ready).1.length = MAX_SAMPLES
    ∧ (ringRun vs samples idx ready).2.1 < MAX_SAMPLES := by
  intro vs
  induction vs with
  | nil => intro samples idx ready hlen hidx; exact ⟨hlen, hidx⟩
  | cons v rest ih =>
      intro samples idx ready hlen hidx
      by_cases hwrap : MAX_SAMPLES ≤ idx + 1
      · have hrp : ringPublish v samples idx ready = (samples.set idx v, 0, true) := by
          unfold ringPublish
          rw [if_pos hwrap]
        show (ringRun rest (ringPublish v samples idx ready).1
            (ringPublish v samples idx ready).2.1
            (ringPublish v samples idx ready).2.2).1.length = MAX_SAMPLES
          ∧ (ringRun rest (ringPublish v samples idx ready).1
            (ringPublish v samples idx ready).2.1
            (ringPublish v samples idx ready).2.2).2.1 < MAX_SAMPLES
        rw [hrp]
        exact ih _ 0 true (by simpa using hlen) (by simp only [MAX_SAMPLES]; omega)
      · have hrp : ringPublish v samples idx ready
            = (samples.set idx v, idx + 1, ready) := by
          unfold ringPublish
          rw [if_neg hwrap]
        show (ringRun rest (ringPublish v samples idx ready).1
            (ringPublish v samples idx ready).2.1
            (ringPublish v samples idx ready).2.2).1.length = MAX_SAMPLES
          ∧ (ringRun rest (ringPublish v samples idx ready).1
            (ringPublish v samples idx ready).2.1
            (ringPublish v samples idx ready).2.2).2.1 < MAX_SAMPLES
        rw [hrp]
        exact ih _ (idx + 1) ready (by simpa using hlen) (by omega)

/-- One battery cycle is the shared circular-buffer publish of its
published value (and stores that value in `BatterySense`). -/
theorem finishBatterySenseCycle_ring (w : Nat) (inp : BatteryCycleIn) (s : AdcState) :
    (FinishBatterySenseCycle w inp s).batterySenseSamples
        = (ringPublish (batteryPublished w inp) s.batterySenseSamples
            s.batterySenseSampleIndex s.batterySenseAverageReady).1
    ∧ (FinishBatterySenseCycle w inp s).batterySenseSampleIndex
        = (ringPublish (batteryPublished w inp) s.batterySenseSamples
            s.batterySenseSampleIndex s.batterySenseAverageReady).2.1
    ∧ (FinishBatterySenseCycle w inp s).batterySenseAverageReady
        = (ringPublish (batteryPublished w inp) s.batterySenseSamples
            s.batterySenseSampleIndex s.batterySenseAverageReady).2.2
    ∧ (FinishBatterySenseCycle w inp s).batterySense = batteryPublished w inp := by
  by_cases hc : MAX_SAMPLES ≤ s.batterySenseSampleIndex + 1 <;>
    simp [FinishBatterySenseCycle, ringPublish, hc, batteryPublished]

/-- A run of battery cycles acts on the battery ring buffer exactly as the
shared circular-buffer run on the published values. -/
theorem runBatteryCycles_ring (w : Nat) :
    ∀ (l : List BatteryCycleIn) (s : AdcState),
    (runBatteryCycles w l s).batterySenseSamples
        = (ringRun (l.map (batteryPublished w)) s.batterySenseSamples
            s.batterySenseSampleIndex s.batterySenseAverageReady).1
    ∧ (runBatteryCycles w l s).batterySenseSampleIndex
        = (ringRun (l.map (batteryPublished w)) s.batterySenseSamples
            s.batterySenseSampleIndex s.batterySenseAverageReady).2.1
    ∧ (runBatteryCycles w l s).batterySenseAverageReady
        = (ringRun (l.map (batteryPublished w)) s.batterySenseSamples
            s.batterySenseSampleIndex s.batterySenseAverageReady).2.2 := by
  intro l
  induction l with
  | nil => intro s; exact ⟨rfl, rfl, rfl⟩
  | cons inp rest ih =>
      intro s
      have hf := finishBatterySenseCycle_ring w inp s
      have hr := ih (FinishBatterySenseCycle w inp s)
      rw [hf.1, hf.2.1, hf.2.2.1] at hr
      exact hr

/-- The instantaneous battery reading after a run ending in a cycle is that
cycle's published value. -/
theorem runBatteryCycles_last (w : Nat) (l : List BatteryCycleIn)
    (inp : BatteryCycleIn) (s : AdcState) :
    (runBatteryCycles w (l ++ [inp]) s).batterySense = batteryPublished w inp := by
  have hsplit : runBatteryCycles w (l ++ [inp]) s
      = FinishBatterySenseCycle w inp (runBatteryCycles w l s) := by
    simp [runBatteryCycles, List.foldl_append]
  rw [hsplit]
  exact (finishBatterySenseCycle_ring w inp _).2.2.2

/-- One light cycle is the shared circular-buffer publish of the converted
count (and stores that value in `LightSense`). -/
theorem finishLightSenseCycle_ring (c : Nat) (s : AdcState) :
    (FinishLightSenseCycle c s).lightSenseSamples
        = (ringPublish (AdcCountsToVoltage c) s.lightSenseSamples
            s.lightSenseSampleIndex s.lightSenseAverageReady).1
    ∧ (FinishLightSenseCycle c s).lightSenseSampleIndex
        = (ringPublish (AdcCountsToVoltage c) s.lightSenseSamples
            s.lightSenseSampleIndex s.lightSenseAverageReady).2.1
    ∧ (FinishLightSenseCycle c s).lightSenseAverageReady
        = (ringPublish (AdcCountsToVoltage c) s.lightSenseSamples
            s.lightSenseSampleIndex s.lightSenseAverageReady).2.2
    ∧ (FinishLightSenseCycle c s).lightSense = AdcCountsToVoltage c := by
  by_cases hc : MAX_SAMPLES ≤ s.lightSenseSampleIndex + 1 <;>
    simp [FinishLightSenseCycle, ringPublish, hc]

/-- A run of light cycles acts on the light ring buffer exactly as the
shared circular-buffer run on the converted counts. -/
theorem runLightCycles_ring :
    ∀ (l : List Nat) (s : AdcState),
    (runLightCycles l s).lightSenseSamples
        = (ringRun (l.map AdcCountsToVoltage) s.lightSenseSamples
            s.lightSenseSampleIndex s.lightSenseAverageReady).1
    ∧ (runLightCycles l s).lightSenseSampleIndex
        = (ringRun (l.map AdcCountsToVoltage) s.lightSenseSamples
            s.lightSenseSampleIndex s.lightSenseAverageReady).2.1
    ∧ (runLightCycles l s).lightSenseAverageReady
        = (ringRun (l.map AdcCountsToVoltage) s.lightSenseSamples
            s.lightSenseSampleIndex s.lightSenseAverageReady).2.2 := by
  intro l
  induction l with
  | nil => intro s; exact ⟨rfl, rfl, rfl⟩
  | cons c rest ih =>
      intro s
      have hf := finishLightSenseCycle_ring c s
      have hr := ih (FinishLightSenseCycle c s)
      rw [hf.1, hf.2.1, hf.2.2.1] at hr
      exact hr

/-- The relevant projections of the initial state. -/
theorem adcInitState_proj (nv : NvId → Option Nat) :
    (InitializeAdc nv).batterySenseSamples = List.replicate MAX_SAMPLES 0
  ∧ (InitializeAdc nv).batterySenseSampleIndex = 0
  ∧ (InitializeAdc nv).batterySenseAverageReady = false
  ∧ (InitializeAdc nv).batterySense = 0
  ∧ (InitializeAdc nv).lightSenseSamples = List.replicate MAX_SAMPLES 0
  ∧ (InitializeAdc nv).lightSenseSampleIndex = 0
  ∧ (InitializeAdc nv).lightSenseAverageReady = false
  ∧ (InitializeAdc nv).lightSense = 0 :=
  ⟨rfl, rfl, rfl, rfl, rfl, rfl, rfl, rfl⟩

/-- C3 (amended): after any run of battery cycles ending in a full
buffer's worth of publishes, the ready latch is set and
`ReadBatterySenseAverage` returns `((sum of the last 10 published values)
mod 2^w) / 10` — which is the exact truncated mean of exactly the last 10
published values whenever that sum fits in the accumulator width; before
the latch is first set it returns the single most recent published value,
and zero before any publish; the ready latch, once set, is never
cleared. -/
theorem c3_battery_average_window (w : Nat) (nv : NvId → Option Nat)
    (pre blk l : List BatteryCycleIn) (inp inp2 : BatteryCycleIn) (s : AdcState)
    (hblk : blk.length = MAX_SAMPLES)
    (hshort : l.length + 1 < MAX_SAMPLES)
    (hready : s.batterySenseAverageReady = true) :
    ReadBatterySenseAverage w
        (runBatteryCycles w blk (runBatteryCycles w pre (InitializeAdc nv)))
        = ((blk.map (batteryPublished w)).sum % 2 ^ w) / MAX_SAMPLES
  ∧ ((blk.map (batteryPublished w)).sum < 2 ^ w →
      ReadBatterySenseAverage w
          (runBatteryCycles w blk (runBatteryCycles w pre (InitializeAdc nv)))
        = (blk.map (batteryPublished w)).sum / MAX_SAMPLES)
  ∧ (runBatteryCycles w blk
        (runBatteryCycles w pre (InitializeAdc nv))).batterySenseAverageReady = true
  ∧ (runBatteryCycles w (l ++ [inp]) (InitializeAdc nv)).batterySenseAverageReady
      = false
  ∧ ReadBatterySenseAverage w (runBatteryCycles w (l ++ [inp]) (InitializeAdc nv))
      = batteryPublished w inp
  ∧ ReadBatterySenseAverage w (InitializeAdc nv) = 0
  ∧ (FinishBatterySenseCycle w inp2 s).batterySenseAverageReady = true := by
  have hinit := adcInitState_proj nv
  have hlen0 : (InitializeAdc nv).batterySenseSamples.length = MAX_SAMPLES := by
    rw [hinit.1]
    exact List.length_replicate _ _
  have hidx0 : (InitializeAdc nv).batterySenseSampleIndex < MAX_SAMPLES := by
    rw [hinit.2.1]
    simp only [MAX_SAMPLES]
    omega
  have hpre := runBatteryCycles_ring w pre (InitializeAdc nv)
  have hvalid := ringRun_valid (pre.map (batteryPublished w))
    (InitializeAdc nv).batterySenseSamples (InitializeAdc nv).batterySenseSampleIndex
    (InitializeAdc nv).batterySenseAverageReady hlen0 hidx0
  have hlen1 : (runBatteryCycles w pre (InitializeAdc nv)).batterySenseSamples.length
      = MAX_SAMPLES := by
    rw [hpre.1]
    exact hvalid.1
  have hidx1 : (runBatteryCycles w pre (InitializeAdc nv)).batterySenseSampleIndex
      < MAX_SAMPLES := by
    rw [hpre.2.1]
    exact hvalid.2
  have hblkrun := runBatteryCycles_ring w blk (runBatteryCycles w pre (InitializeAdc nv))
  have hblock := ringRun_block (blk.map (batteryPublished w))
    (runBatteryCycles w pre (InitializeAdc nv)).batterySenseSamples
    (runBatteryCycles w pre (InitializeAdc nv)).batterySenseSampleIndex
    (runBatteryCycles w pre (InitializeAdc nv)).batterySenseAverageReady
    (by rw [List.length_map]; exact hblk) hlen1 hidx1
  have hreadyT : (runBatteryCycles w blk
      (runBatteryCycles w pre (InitializeAdc nv))).batterySenseAverageReady = true := by
    rw [hblkrun.2.2]
    exact hblock.2.2
  have hsum : (runBatteryCycles w blk
        (runBatteryCycles w pre (InitializeAdc nv))).batterySenseSamples.sum
      = (blk.map (batteryPublished w)).sum := by
    rw [hblkrun.1, hblock.1, List.sum_append, Nat.add_comm, ← List.sum_append,
      List.take_append_drop]
  have hlelen : (InitializeAdc nv).batterySenseSampleIndex
      + ((l ++ [inp]).map (batteryPublished w)).length ≤ MAX_SAMPLES := by
    rw [hinit.2.1, List.length_map, List.length_append]
    simp only [List.length_cons, List.length_nil]
    omega
  have hne : ¬ ((InitializeAdc nv).batterySenseSampleIndex
      + ((l ++ [inp]).map (batteryPublished w)).length = MAX_SAMPLES) := by
    rw [hinit.2.1, List.length_map, List.length_append]
    simp only [List.length_cons, List.length_nil]
    omega
  have hshortrun := runBatteryCycles_ring w (l ++ [inp]) (InitializeAdc nv)
  have hfill := ringRun_fill ((l ++ [inp]).map (batteryPublished w))
    (InitializeAdc nv).batterySenseSamples (InitializeAdc nv).batterySenseSampleIndex
    (InitializeAdc nv).batterySenseAverageReady hlen0 hidx0 hlelen
  have hrdy : (runBatteryCycles w (l ++ [inp])
      (InitializeAdc nv)).batterySenseAverageReady = false := by
    rw [hshortrun.2.2, hfill.2.2, if_neg hne, hinit.2.2.1]
  refine ⟨?_, ?_, hreadyT, hrdy, ?_, ?_, ?_⟩
  · rw [readBatterySenseAverage_of_ready w _ hreadyT, hsum]
  · intro hlt
    rw [readBatterySenseAverage_of_ready w _ hreadyT, hsum, Nat.mod_eq_of_lt hlt]
  · rw [ReadBatterySenseAverage, if_neg (by simp [hrdy])]
    exact runBatteryCycles_last w l inp _
  · rw [ReadBatterySenseAverage, if_neg (by simp [hinit.2.2.1]), hinit.2.2.2.1]
  · by_cases hc : MAX_SAMPLES ≤ s.batterySenseSampleIndex + 1 <;>
      simp [FinishBatterySenseCycle, hc, hready]

/-- C3 witness: ten cycles at count 1638 (converting to 2575 mV, no
calibration) from the initial state; and a single first publish at count
819 (1288 mV). -/
theorem c3_battery_average_window_witness :
    ReadBatterySenseAverage 16
        (runBatteryCycles 16 (List.replicate 10 ⟨1638, false, 0⟩)
          (runBatteryCycles 16 [] (InitializeAdc (fun _ => none))))
        = (((List.replicate 10 (⟨1638, false, 0⟩ : BatteryCycleIn)).map
              (batteryPublished 16)).sum % 2 ^ 16) / MAX_SAMPLES
  ∧ (((List.replicate 10 (⟨1638, false, 0⟩ : BatteryCycleIn)).map
        (batteryPublished 16)).sum < 2 ^ 16 →
      ReadBatterySenseAverage 16
          (runBatteryCycles 16 (List.replicate 10 ⟨1638, false, 0⟩)
            (runBatteryCycles 16 [] (InitializeAdc (fun _ => none))))
        = ((List.replicate 10 (⟨1638, false, 0⟩ : BatteryCycleIn)).map
              (batteryPublished 16)).sum / MAX_SAMPLES)
  ∧ (runBatteryCycles 16 (List.replicate 10 ⟨1638, false, 0⟩)
        (runBatteryCycles 16 []
          (InitializeAdc (fun _ => none)))).batterySenseAverageReady = true
  ∧ (runBatteryCycles 16 ([] ++ [⟨819, false, 0⟩])
        (InitializeAdc (fun _ => none))).batterySenseAverageReady = false
  ∧ ReadBatterySenseAverage 16
        (runBatteryCycles 16 ([] ++ [⟨819, false, 0⟩]) (InitializeAdc (fun _ => none)))
      = batteryPublished 16 ⟨819, false, 0⟩
  ∧ ReadBatterySenseAverage 16 (InitializeAdc (fun _ => none)) = 0
  ∧ (FinishBatterySenseCycle 16 ⟨0, false, 0⟩
        { InitializeAdc (fun _ => none) with
            batterySenseAverageReady := true }).batterySenseAverageReady = true :=
  c3_battery_average_window 16 (fun _ => none) [] (List.replicate 10 ⟨1638, false, 0⟩)
    [] ⟨819, false, 0⟩ ⟨0, false, 0⟩
    { InitializeAdc (fun _ => none) with batterySenseAverageReady := true }
    rfl (by decide) rfl

/-- C3 counterexample to the claim as stated: ten battery cycles at
full-scale count 4095 with a valid +560 mV calibration offset publish ten
values of 7000 mV, whose exact truncated mean is 7000; but on the 16-bit
target `ReadBatterySenseAverage` returns 446 (the 16-bit accumulator
wraps: 70000 mod 65536 = 4464, divided by 10), so the returned average is
not the exact mean of the last 10 published values. -/
theorem c3_battery_average_counterexample :
    ReadBatterySenseAverage 16
        (runBatteryCycles 16 (List.replicate 10 ⟨4095, true, 560⟩)
          (InitializeAdc (fun _ => none))) = 446
  ∧ ((List.replicate 10 (⟨4095, true, 560⟩ : BatteryCycleIn)).map
        (batteryPublished 16)).sum / MAX_SAMPLES = 7000
  ∧ (446 : Nat) ≠ 7000 := by
  have hpub : batteryPublished 16 ⟨4095, true, 560⟩ = 7000 := by
    simp only [batteryPublished, publishedBatteryValue, adcCountsToBatteryVoltage_eq]
    decide
  have hmap : (List.replicate 10 (⟨4095, true, 560⟩ : BatteryCycleIn)).map
      (batteryPublished 16) = List.replicate 10 7000 := by
    rw [List.map_replicate, hpub]
  have hinit := adcInitState_proj (fun _ => none)
  have hlen0 : (InitializeAdc (fun _ => none)).batterySenseSamples.length
      = MAX_SAMPLES := by
    rw [hinit.1]
    exact List.length_replicate _ _
  have hidx0 : (InitializeAdc (fun _ => none)).batterySenseSampleIndex
      < MAX_SAMPLES := by
    rw [hinit.2.1]
    simp only [MAX_SAMPLES]
    omega
  have hrun := runBatteryCycles_ring 16 (List.replicate 10 ⟨4095, true, 560⟩)
    (InitializeAdc (fun _ => none))
  have hblock := ringRun_block
    ((List.replicate 10 (⟨4095, true, 560⟩ : BatteryCycleIn)).map (batteryPublished 16))
    (InitializeAdc (fun _ => none)).batterySenseSamples
    (InitializeAdc (fun _ => none)).batterySenseSampleIndex
    (InitializeAdc (fun _ => none)).batterySenseAverageReady
    (by simp [List.length_map, List.length_replicate, MAX_SAMPLES]) hlen0 hidx0
  have hreadyT : (runBatteryCycles 16 (List.replicate 10 ⟨4095, true, 560⟩)
      (InitializeAdc (fun _ => none))).batterySenseAverageReady = true := by
    rw [hrun.2.2]
    exact hblock.2.2
  have hsum : (runBatteryCycles 16 (List.replicate 10 ⟨4095, true, 560⟩)
        (InitializeAdc (fun _ => none))).batterySenseSamples.sum
      = (List.replicate 10 7000).sum := by
    rw [hrun.1, hblock.1, List.sum_append, Nat.add_comm, ← List.sum_append,
      List.take_append_drop, hmap]
  refine ⟨?_, ?_, by decide⟩
  · rw [readBatterySenseAverage_of_ready 16 _ hreadyT, hsum]
    simp [List.sum_replicate, smul_eq_mul, MAX_SAMPLES]
  · rw [hmap]
    simp [List.sum_replicate, smul_eq_mul, MAX_SAMPLES]

/-- C5 (amended): the battery conversion is the exact truncated formula of
the spec; a cycle publishes the unadjusted conversion when calibration is
invalid, and the conversion plus the offset (as wrapping `unsigned int`
arithmetic) when valid — which equals the plain sum `conversion + offset`
exactly when that sum lies within the unsigned range `[0, 2^w)`. -/
theorem c5_battery_conversion_publish (w c : Nat) (_hc : c ≤ 4095) (off : Int)
    (s : AdcState)
    (hlo : 0 ≤ (AdcCountsToBatteryVoltage c : Int) + off)
    (hhi : (AdcCountsToBatteryVoltage c : Int) + off < 2 ^ w) :
    AdcCountsToBatteryVoltage c = c * ((24300 + 38300) * 2500) / (4095 * 24300)
  ∧ publishedBatteryValue w c false off = AdcCountsToBatteryVoltage c
  ∧ ((publishedBatteryValue w c true off : Int)
      = (AdcCountsToBatteryVoltage c : Int) + off)
  ∧ (FinishBatterySenseCycle w ⟨c, true, off⟩ s).batterySense
      = publishedBatteryValue w c true off
  ∧ (FinishBatterySenseCycle w ⟨c, false, off⟩ s).batterySense
      = AdcCountsToBatteryVoltage c := by
  refine ⟨by rw [adcCountsToBatteryVoltage_eq], by simp [publishedBatteryValue], ?_, ?_, ?_⟩
  · simp only [publishedBatteryValue, if_true]
    rw [Int.emod_eq_of_lt hlo hhi, Int.toNat_of_nonneg hlo]
  · exact (finishBatterySenseCycle_ring w ⟨c, true, off⟩ s).2.2.2
  · rw [(finishBatterySenseCycle_ring w ⟨c, false, off⟩ s).2.2.2]
    simp [batteryPublished, publishedBatteryValue]

/-- C5 witness: full-scale count 4095 (converting to 6440 mV) with a valid
+100 mV calibration offset on the 16-bit target. -/
theorem c5_battery_conversion_publish_witness :
    AdcCountsToBatteryVoltage 4095
        = 4095 * ((24300 + 38300) * 2500) / (4095 * 24300)
  ∧ publishedBatteryValue 16 4095 false 100 = AdcCountsToBatteryVoltage 4095
  ∧ ((publishedBatteryValue 16 4095 true 100 : Int)
      = (AdcCountsToBatteryVoltage 4095 : Int) + 100)
  ∧ (FinishBatterySenseCycle 16 ⟨4095, true, 100⟩
        (InitializeAdc (fun _ => none))).batterySense
      = publishedBatteryValue 16 4095 true 100
  ∧ (FinishBatterySenseCycle 16 ⟨4095, false, 100⟩
        (InitializeAdc (fun _ => none))).batterySense
      = AdcCountsToBatteryVoltage 4095 :=
  c5_battery_conversion_publish 16 4095 (by decide) 100 (InitializeAdc (fun _ => none))
    (by simp [adcCountsToBatteryVoltage_eq])
    (by simp [adcCountsToBatteryVoltage_eq])

/-- C5 counterexample to the claim as stated: with a valid calibration
offset of −10000 mV at count 4095 (conversion 6440 mV) the published
`unsigned int` value on the 16-bit target wraps to 61976, which is not
`conversion + offset = −3560`. -/
theorem c5_battery_conversion_counterexample :
    ((publishedBatteryValue 16 4095 true (-10000) : Int)
        ≠ (AdcCountsToBatteryVoltage 4095 : Int) + (-10000))
  ∧ publishedBatteryValue 16 4095 true (-10000) = 61976 := by
  have h : AdcCountsToBatteryVoltage 4095 = 6440 := by
    rw [adcCountsToBatteryVoltage_eq]
  refine ⟨?_, ?_⟩ <;> simp only [publishedBatteryValue, h] <;> decide

/-- C9: when the light ready latch is set, `ReadLightSenseAverage`
accumulates the ten stored samples in one machine-word unsigned
accumulator and returns `((sum of the 10 samples) mod 2^w) / 10`; on the
16-bit target the sample set reached by ten full-scale light cycles
(ten samples of 24993) has sum 249930 > 65535, and the returned value
5332 differs from the true arithmetic mean 24993. -/
theorem c9_light_average_modular (w : Nat) (s : AdcState)
    (h : s.lightSenseAverageReady = true) :
    ReadLightSenseAverage w s = (s.lightSenseSamples.sum % 2 ^ w) / MAX_SAMPLES
  ∧ (runLightCycles (List.replicate 10 4095)
        (InitializeAdc (fun _ => none))).lightSenseSamples.sum = 249930
  ∧ 65535 < (runLightCycles (List.replicate 10 4095)
        (InitializeAdc (fun _ => none))).lightSenseSamples.sum
  ∧ ReadLightSenseAverage 16 (runLightCycles (List.replicate 10 4095)
        (InitializeAdc (fun _ => none))) = 5332
  ∧ (runLightCycles (List.replicate 10 4095)
        (InitializeAdc (fun _ => none))).lightSenseSamples.sum / MAX_SAMPLES = 24993
  ∧ (5332 : Nat) ≠ 24993 := by
  have hconv : AdcCountsToVoltage 4095 = 24993 := by
    rw [adcCountsToVoltage_eq]
  have hmap : (List.replicate 10 4095).map AdcCountsToVoltage
      = List.replicate 10 24993 := by
    rw [List.map_replicate, hconv]
  have hinit := adcInitState_proj (fun _ => none)
  have hlen0 : (InitializeAdc (fun _ => none)).lightSenseSamples.length
      = MAX_SAMPLES := by
    rw [hinit.2.2.2.2.1]
    exact List.length_replicate _ _
  have hidx0 : (InitializeAdc (fun _ => none)).lightSenseSampleIndex
      < MAX_SAMPLES := by
    rw [hinit.2.2.2.2.2.1]
    simp only [MAX_SAMPLES]
    omega
  have hrun := runLightCycles_ring (List.replicate 10 4095)
    (InitializeAdc (fun _ => none))
  have hblock := ringRun_block ((List.replicate 10 4095).map AdcCountsToVoltage)
    (InitializeAdc (fun _ => none)).lightSenseSamples
    (InitializeAdc (fun _ => none)).lightSenseSampleIndex
    (InitializeAdc (fun _ => none)).lightSenseAverageReady
    (by simp [List.length_map, List.length_replicate, MAX_SAMPLES]) hlen0 hidx0
  have hreadyT : (runLightCycles (List.replicate 10 4095)
      (InitializeAdc (fun _ => none))).lightSenseAverageReady = true := by
    rw [hrun.2.2]
    exact hblock.2.2
  have hsum : (runLightCycles (List.replicate 10 4095)
        (InitializeAdc (fun _ => none))).lightSenseSamples.sum = 249930 := by
    rw [hrun.1, hblock.1, List.sum_append, Nat.add_comm, ← List.sum_append,
      List.take_append_drop, hmap]
    simp [List.sum_replicate, smul_eq_mul]
  refine ⟨readLightSenseAverage_of_ready w s h, hsum, by rw [hsum]; omega, ?_,
    by rw [hsum]; decide, by decide⟩
  rw [readLightSenseAverage_of_ready 16 _ hreadyT, hsum]
  decide

/-- C9 witness: a ready light averager over the all-zero initial buffer. -/
theorem c9_light_average_modular_witness :
    ReadLightSenseAverage 16
        { InitializeAdc (fun _ => none) with lightSenseAverageReady := true }
      = (({ InitializeAdc (fun _ => none) with
            lightSenseAverageReady := true } : AdcState).lightSenseSamples.sum % 2 ^ 16)
          / MAX_SAMPLES
  ∧ (runLightCycles (List.replicate 10 4095)
        (InitializeAdc (fun _ => none))).lightSenseSamples.sum = 249930
  ∧ 65535 < (runLightCycles (List.replicate 10 4095)
        (InitializeAdc (fun _ => none))).lightSenseSamples.sum
  ∧ ReadLightSenseAverage 16 (runLightCycles (List.replicate 10 4095)
        (InitializeAdc (fun _ => none))) = 5332
  ∧ (runLightCycles (List.replicate 10 4095)
        (InitializeAdc (fun _ => none))).lightSenseSamples.sum / MAX_SAMPLES = 24993
  ∧ (5332 : Nat) ≠ 24993 :=
  c9_light_average_modular 16
    { InitializeAdc (fun _ => none) with lightSenseAverageReady := true } rfl

/-- In each cycle trace, the acquire is the first event, the release the
last, and every hardware access lies strictly between them. -/
theorem adcTrace_event_position (i : Fin 3) (n : Nat) (e : CycleEv)
    (h : (adcTrace i)[n]? = some e) :
    n < (adcTrace i).length
  ∧ (e = CycleEv.acquire → n = 0)
  ∧ (e = CycleEv.release → n + 1 = (adcTrace i).length)
  ∧ (∀ hs : HwStep, e = CycleEv.hw hs → 0 < n ∧ n + 1 < (adcTrace i).length) := by
  have hn : n < (adcTrace i).length := by
    by_contra hcon
    rw [List.getElem?_eq_none (by omega)] at h
    exact Option.noConfusion h
  have hlen12 : ∀ j : Fin 3, (adcTrace j).length ≤ 12 := by decide
  have key : ∀ (j : Fin 3) (m : Fin 12) (ev : CycleEv),
      (adcTrace j)[m.val]? = some ev →
      (ev = CycleEv.acquire → m.val = 0)
      ∧ (ev = CycleEv.release → m.val + 1 = (adcTrace j).length)
      ∧ (∀ hs : HwStep, ev = CycleEv.hw hs →
          0 < m.val ∧ m.val + 1 < (adcTrace j).length) := by decide
  have hb : n < 12 := by
    have := hlen12 i
    omega
  exact ⟨hn, key i ⟨n, hb⟩ e h⟩

/-- One interleaved step preserves the mutex invariant. -/
theorem schedStep_gateInv {st st' : AdcSched} (hstep : SchedStep st st')
    (hinv : GateInv st) : GateInv st' := by
  have hlen2 : ∀ j : Fin 3, 1 < (adcTrace j).length := by decide
  cases hstep with
  | acquire i hget hgate =>
      have hpos := (adcTrace_event_position i _ _ hget).2.1 rfl
      have hnone : ∀ j : Fin 3, ¬ inside j st := by
        intro j hj
        have hg := (hinv j).mpr hj
        rw [hgate] at hg
        exact Option.noConfusion hg
      intro j
      constructor
      · intro hj
        have hij : i = j := Option.some.inj hj
        subst hij
        constructor
        · show 0 < Function.update st.pc i (st.pc i + 1) i
          rw [Function.update_same]
          omega
        · show Function.update st.pc i (st.pc i + 1) i < (adcTrace i).length
          rw [Function.update_same, hpos]
          exact hlen2 i
      · intro hj
        by_cases hij : j = i
        · subst hij
          rfl
        · exfalso
          apply hnone j
          have heq : Function.update st.pc i (st.pc i + 1) j = st.pc j :=
            Function.update_noteq hij _ _
          unfold inside at hj ⊢
          dsimp only at hj
          rw [heq] at hj
          exact hj
  | hw i hs hget =>
      have hpos := (adcTrace_event_position i _ _ hget).2.2.2 hs rfl
      have hin : inside i st := ⟨hpos.1, by omega⟩
      have hgate : st.gate = some i := (hinv i).mpr hin
      intro j
      constructor
      · intro hj
        have hj' : st.gate = some j := hj
        rw [hgate] at hj'
        have hij : i = j := Option.some.inj hj'
        subst hij
        constructor
        · show 0 < Function.update st.pc i (st.pc i + 1) i
          rw [Function.update_same]
          omega
        · show Function.update st.pc i (st.pc i + 1) i < (adcTrace i).length
          rw [Function.update_same]
          exact hpos.2
      · intro hj
        show st.gate = some j
        by_cases hij : j = i
        · subst hij
          exact hgate
        · have heq : Function.update st.pc i (st.pc i + 1) j = st.pc j :=
            Function.update_noteq hij _ _
          apply (hinv j).mpr
          unfold inside at hj ⊢
          dsimp only at hj
          rw [heq] at hj
          exact hj
  | release i hget =>
      have hpos := (adcTrace_event_position i _ _ hget).2.2.1 rfl
      have hlt := (adcTrace_event_position i _ _ hget).1
      have hpc0 : 0 < st.pc i := by
        have := hlen2 i
        omega
      have hgate : st.gate = some i := (hinv i).mpr ⟨hpc0, hlt⟩
      intro j
      constructor
      · intro hj
        exact Option.noConfusion hj
      · intro hj
        exfalso
        by_cases hij : j = i
        · subst hij
          have heq : Function.update st.pc j (st.pc j + 1) j = st.pc j + 1 :=
            Function.update_same _ _ _
          unfold inside at hj
          dsimp only at hj
          rw [heq] at hj
          omega
        · have heq : Function.update st.pc i (st.pc i + 1) j = st.pc j :=
            Function.update_noteq hij _ _
          unfold inside at hj
          dsimp only at hj
          rw [heq] at hj
          have hg := (hinv j).mpr hj
          rw [hgate] at hg
          exact hij (Option.some.inj hg).symm

/-- Every reachable scheduler state satisfies the mutex invariant. -/
theorem reachable_gateInv {st : AdcSched} (h : Reachable st) : GateInv st := by
  have h' : Relation.ReflTransGen SchedStep initSched st := h
  clear h
  induction h' with
  | refl =>
      intro i
      constructor
      · intro hi
        exact Option.noConfusion hi
      · intro hi
        exact absurd hi.1 (lt_irrefl 0)
  | tail _hab hstep ih => exact schedStep_gateInv hstep ih

/-- C4: each conversion cycle acquires `AdcHardwareMutex` exactly once, as
its first event, before any converter access, and releases it exactly
once, as its last event, on its single completion path; every hardware
access lies strictly between the two; in every reachable interleaving at
most one cycle is ever inside its critical section, and whenever no cycle
is inside, the gate is free. -/
theorem c4_hardware_gate_exclusion (st : AdcSched) (hst : Reachable st) :
    (∀ i : Fin 3, (adcTrace i).count CycleEv.acquire = 1
        ∧ (adcTrace i).count CycleEv.release = 1
        ∧ (adcTrace i)[0]? = some CycleEv.acquire
        ∧ (adcTrace i).getLast? = some CycleEv.release)
  ∧ (∀ (i : Fin 3) (n : Nat) (hs : HwStep),
        (adcTrace i)[n]? = some (CycleEv.hw hs) →
        0 < n ∧ n + 1 < (adcTrace i).length)
  ∧ (∀ i j : Fin 3, inside i st → inside j st → i = j)
  ∧ ((∀ i : Fin 3, ¬ inside i st) → st.gate = none) := by
  have hinv := reachable_gateInv hst
  refine ⟨by decide, ?_, ?_, ?_⟩
  · intro i n hs h
    exact (adcTrace_event_position i n _ h).2.2.2 hs rfl
  · intro i j hi hj
    have h1 := (hinv i).mpr hi
    have h2 := (hinv j).mpr hj
    rw [h1] at h2
    exact Option.some.inj h2
  · intro hnone
    cases hg : st.gate with
    | none => rfl
    | some i => exact absurd ((hinv i).mp hg) (hnone i)

/-- Collapsing two consecutive program-counter updates of the same task. -/
theorem update_update_pc (f : Fin 3 → Nat) (k m : Nat) :
    Function.update (Function.update f 1 k) 1 m = Function.update f 1 m := by
  rw [Function.update_idem]

/-- C4 witness: the scheduler state reached by one complete battery sense
cycle (acquire, nine hardware accesses, release); nothing is inside a
critical section there and the gate is free. -/
theorem c4_hardware_gate_exclusion_witness :
    (∀ i : Fin 3, (adcTrace i).count CycleEv.acquire = 1
        ∧ (adcTrace i).count CycleEv.release = 1
        ∧ (adcTrace i)[0]? = some CycleEv.acquire
        ∧ (adcTrace i).getLast? = some CycleEv.release)
  ∧ (∀ (i : Fin 3) (n : Nat) (hs : HwStep),
        (adcTrace i)[n]? = some (CycleEv.hw hs) →
        0 < n ∧ n + 1 < (adcTrace i).length)
  ∧ (∀ i j : Fin 3,
        inside i ⟨none, Function.update initSched.pc 1 11⟩ →
        inside j ⟨none, Function.update initSched.pc 1 11⟩ → i = j)
  ∧ ((∀ i : Fin 3, ¬ inside i ⟨none, Function.update initSched.pc 1 11⟩) →
        (⟨none, Function.update initSched.pc 1 11⟩ : AdcSched).gate = none) := by
  have t1 : SchedStep initSched ⟨some 1, Function.update initSched.pc 1 1⟩ :=
    SchedStep.acquire initSched 1 (by decide) rfl
  have t2 : SchedStep ⟨some 1, Function.update initSched.pc 1 1⟩
      ⟨some 1, Function.update initSched.pc 1 2⟩ := by
    have h := SchedStep.hw ⟨some 1, Function.update initSched.pc 1 1⟩ 1
      HwStep.senseEnable (by decide)
    dsimp only at h
    rwa [update_update_pc] at h
  have t3 : SchedStep ⟨some 1, Function.update initSched.pc 1 2⟩
      ⟨some 1, Function.update initSched.pc 1 3⟩ := by
    have h := SchedStep.hw ⟨some 1, Function.update initSched.pc 1 2⟩ 1
      HwStep.adcCheck (by decide)
    dsimp only at h
    rwa [update_update_pc] at h
  have t4 : SchedStep ⟨some 1, Function.update initSched.pc 1 3⟩
      ⟨some 1, Function.update initSched.pc 1 4⟩ := by
    have h := SchedStep.hw ⟨some 1, Function.update initSched.pc 1 3⟩ 1
      HwStep.clearStartAddr (by decide)
    dsimp only at h
    rwa [update_update_pc] at h
  have t5 : SchedStep ⟨some 1, Function.update initSched.pc 1 4⟩
      ⟨some 1, Function.update initSched.pc 1 5⟩ := by
    have h := SchedStep.hw ⟨some 1, Function.update initSched.pc 1 4⟩ 1
      HwStep.setStartAddr (by decide)
    dsimp only at h
    rwa [update_update_pc] at h
  have t6 : SchedStep ⟨some 1, Function.update initSched.pc 1 5⟩
      ⟨some 1, Function.update initSched.pc 1 6⟩ := by
    have h := SchedStep.hw ⟨some 1, Function.update initSched.pc 1 5⟩ 1
      HwStep.enableAdc (by decide)
    dsimp only at h
    rwa [update_update_pc] at h
  have t7 : SchedStep ⟨some 1, Function.update initSched.pc 1 6⟩
      ⟨some 1, Function.update initSched.pc 1 7⟩ := by
    have h := SchedStep.hw ⟨some 1, Function.update initSched.pc 1 6⟩ 1
      HwStep.waitAdcBusy (by decide)
    dsimp only at h
    rwa [update_update_pc] at h
  have t8 : SchedStep ⟨some 1, Function.update initSched.pc 1 7⟩
      ⟨some 1, Function.update initSched.pc 1 8⟩ := by
    have h := SchedStep.hw ⟨some 1, Function.update initSched.pc 1 7⟩ 1
      HwStep.readAndStore (by decide)
    dsimp only at h
    rwa [update_update_pc] at h
  have t9 : SchedStep ⟨some 1, Function.update initSched.pc 1 8⟩
      ⟨some 1, Function.update initSched.pc 1 9⟩ := by
    have h := SchedStep.hw ⟨some 1, Function.update initSched.pc 1 8⟩ 1
      HwStep.senseDisable (by decide)
    dsimp only at h
    rwa [update_update_pc] at h
  have t10 : SchedStep ⟨some 1, Function.update initSched.pc 1 9⟩
      ⟨some 1, Function.update initSched.pc 1 10⟩ := by
    have h := SchedStep.hw ⟨some 1, Function.update initSched.pc 1 9⟩ 1
      HwStep.disableAdc (by decide)
    dsimp only at h
    rwa [update_update_pc] at h
  have t11 : SchedStep ⟨some 1, Function.update initSched.pc 1 10⟩
      ⟨none, Function.update initSched.pc 1 11⟩ := by
    have h := SchedStep.release ⟨some 1, Function.update initSched.pc 1 10⟩ 1
      (by decide)
    dsimp only at h
    rwa [update_update_pc] at h
  have hreach : Reachable ⟨none, Function.update initSched.pc 1 11⟩ :=
    ((((((((((Relation.ReflTransGen.refl.tail t1).tail t2).tail t3).tail
      t4).tail t5).tail t6).tail t7).tail t8).tail t9).tail t10).tail t11
  exact c4_hardware_gate_exclusion ⟨none, Function.update initSched.pc 1 11⟩ hreach

end Adc

